import Mathlib

/-
Verification development for the kolosal-vibe repository.

The definitions below are a shallow embedding of the Python sources:
  * `src/web/web_agent.py`  (WebCodeAgent: `_parse_web_files`, file store,
    preview server, batch and streaming generation),
  * `src/llm.py`            (KolosalClient `_extract_code`),
  * `src/agent.py`          (CodeAgent `run` auto-fix loop),
  * `src/api/websocket.py`  (the `chat` branch of `websocket_endpoint`),
  * `src/api/routes.py`     (the state effect of the batch `/chat` route).

Strings are modelled as `List Char` (`Str`) in the parsing core so that the
text scanning performed by the Python `re` module can be written as plain
structural recursion.  The regular expressions used by the source are simple
enough (literal fences, `\S+`, `\w*`, `\s*\n`, lazy bodies ending at the next
fence) that their matching behaviour on a given text is reproduced exactly by
direct scans; where a regex engine would backtrack, the equivalent
deterministic condition is used and noted.
-/

set_option maxRecDepth 4096

namespace KolosalVibe

abbrev Str := List Char

/-- Python `\s` (also the character class used by `str.strip`). -/
def isPySpace (c : Char) : Bool :=
  c = ' ' || c = '\t' || c = '\n' || c = '\r' || c = '\x0b' || c = '\x0c'

/-- Python `\w` (ASCII fragment). -/
def isWordChar (c : Char) : Bool :=
  c.isAlphanum || c = '_'

/-- Python `str.strip()`. -/
def strip (s : Str) : Str :=
  List.reverse (List.dropWhile isPySpace (List.reverse (List.dropWhile isPySpace s)))

/-- The triple-backtick fence delimiter. -/
def fenceStr : Str := [Char.ofNat 96, Char.ofNat 96, Char.ofNat 96]

/-- First index at which `t` occurs in the scanned string (Python `str.find`). -/
def findSub (t : Str) : Str → Option Nat
  | [] => if t.isPrefixOf ([] : Str) then some 0 else none
  | c :: cs => if t.isPrefixOf (c :: cs) then some 0 else (findSub t cs).map (· + 1)

/-- Python `t in s`. -/
def containsSub (s t : Str) : Bool :=
  (findSub t s).isSome

/-- Case-insensitive prefix test (`re.IGNORECASE` on a literal pattern). -/
def isPrefixOfCI : Str → Str → Bool
  | [], _ => true
  | _ :: _, [] => false
  | a :: as, b :: bs => (a.toLower = b.toLower) && isPrefixOfCI as bs

/-- Case-insensitive suffix test. -/
def hasSuffixCI (s suffix : Str) : Bool :=
  isPrefixOfCI suffix.reverse s.reverse

/-- Split a text at the first fence occurrence: the lazy body `(.*?)` followed
by the closing ``` of every block regex, together with the remaining text. -/
def splitOnFence : Str → Option (Str × Str)
  | [] => none
  | c :: cs =>
    if fenceStr.isPrefixOf (c :: cs) then some ([], (c :: cs).drop 3)
    else
      match splitOnFence cs with
      | some (a, b) => some (c :: a, b)
      | none => none

/-- Matching `\s*\n` greedily: succeeds when the maximal whitespace run ahead
contains a newline, and returns the text after the last newline of that run
(the greedy `\s*` consumes through the last newline before backtracking). -/
def afterWsNewline (s : Str) : Option Str :=
  let ws := s.takeWhile isPySpace
  if ws.contains '\n' then
    let trailing := (ws.reverse.takeWhile (fun c => c ≠ '\n')).length
    some (s.drop (ws.length - trailing))
  else none

/-- The four filename extensions accepted by pattern 1 of `_parse_web_files`. -/
def fileExts : List Str := ["html", "css", "js", "json"].map String.toList

/-- Does the nonspace run after the fence match `\S+\.(?:html|css|js|json)`
followed by whitespace?  Because `\S+` only ever ends at whitespace, the run
must end with a dot-extension and have a nonempty stem. -/
def labelOk (run : Str) : Bool :=
  fileExts.any (fun e => hasSuffixCI run ('.' :: e) && decide (e.length + 1 < run.length))

/-- One attempted match of pattern 1,
`r"```(\S+\.(?:html|css|js|json))\s*\n(.*?)```"` (DOTALL, IGNORECASE), at the
head of `s`.  Returns the captured label, the raw body, and the rest of the
text after the closing fence. -/
def tryMatchFileBlock (s : Str) : Option (Str × Str × Str) :=
  if fenceStr.isPrefixOf s then
    let after := s.drop 3
    let run := after.takeWhile (fun c => !(isPySpace c))
    if labelOk run then
      match afterWsNewline (after.drop run.length) with
      | some cstart =>
        match splitOnFence cstart with
        | some (content, rest) => some (run, content, rest)
        | none => none
      | none => none
    else none
  else none

/-- `re.findall` for pattern 1: left-to-right scan, non-overlapping matches.
The fuel argument (initially the text length) only discharges termination;
a successful match always consumes more than one character. -/
def findFileBlocksAux : Nat → Str → List (Str × Str)
  | 0, _ => []
  | _ + 1, [] => []
  | n + 1, c :: cs =>
    match tryMatchFileBlock (c :: cs) with
    | some (label, content, rest) => (label, content) :: findFileBlocksAux n rest
    | none => findFileBlocksAux n cs

def findFileBlocks (s : Str) : List (Str × Str) :=
  findFileBlocksAux s.length s

/-- One attempted match of a language-tag pattern such as `r"```html\s*\n(.*?)```"`
(DOTALL, no IGNORECASE) at the head of `s`. -/
def tryLangAt (tag : Str) (s : Str) : Option Str :=
  if (fenceStr ++ tag).isPrefixOf s then
    match afterWsNewline (s.drop (3 + tag.length)) with
    | some cstart =>
      match splitOnFence cstart with
      | some (content, _) => some content
      | none => none
    | none => none
  else none

/-- `re.search` for a language-tag pattern. -/
def searchLang (tag : Str) : Str → Option Str
  | [] => none
  | c :: cs =>
    match tryLangAt tag (c :: cs) with
    | some r => some r
    | none => searchLang tag cs

/-- One attempted match of the generic pattern `r"```(?:\w*)\s*\n(.*?)```"`
(DOTALL) at the head of `s`.  The greedy `\w*` must take the whole word run:
for any shorter split the following character is a word character, which
`\s*\n` cannot match. -/
def tryGenericAt (s : Str) : Option Str :=
  if fenceStr.isPrefixOf s then
    let after := s.drop 3
    let run := after.takeWhile isWordChar
    match afterWsNewline (after.drop run.length) with
    | some cstart =>
      match splitOnFence cstart with
      | some (content, _) => some content
      | none => none
    | none => none
  else none

/-- First match of the generic pattern (`re.findall(...)[0]`). -/
def searchGeneric : Str → Option Str
  | [] => none
  | c :: cs =>
    match tryGenericAt (c :: cs) with
    | some r => some r
    | none => searchGeneric cs

/-! ### The dict model

Python 3.7 dicts preserve insertion order; assigning to an existing key keeps
its position, a new key is appended. -/

def dinsert {α β : Type} [BEq α] (d : List (α × β)) (k : α) (v : β) : List (α × β) :=
  if d.any (fun p => p.1 == k) then
    d.map (fun p => if p.1 == k then (k, v) else p)
  else d ++ [(k, v)]

def dmem {α β : Type} [BEq α] (d : List (α × β)) (k : α) : Bool :=
  d.any (fun p => p.1 == k)

def dlookup {α β : Type} [BEq α] : List (α × β) → α → Option β
  | [], _ => none
  | p :: ps, k => if p.1 == k then some p.2 else dlookup ps k

abbrev FDict := List (Str × Str)

/-! ### `WebCodeAgent._parse_web_files` -/

def indexKey : Str := "index.html".toList
def stylesKey : Str := "styles.css".toList
def styleKey : Str := "style.css".toList
def scriptKey : Str := "script.js".toList
def appKey : Str := "app.js".toList
def doctypeTag : Str := "<!DOCTYPE".toList
def htmlOpenTag : Str := "<html".toList

/-- Pattern 1: explicit `\S+.ext` filename labels, in match order,
`files[filename.strip()] = content.strip()`. -/
def step1 (response : Str) : FDict :=
  (findFileBlocks response).foldl
    (fun d lb => dinsert d (strip lb.1) (strip lb.2)) []

/-- The `html`/`HTML`/`htm` language patterns, tried in order, filling
`index.html` when absent. -/
def step2html (response : Str) (files : FDict) : FDict :=
  if dmem files indexKey then files
  else
    match searchLang "html".toList response with
    | some c => dinsert files indexKey (strip c)
    | none =>
      match searchLang "HTML".toList response with
      | some c => dinsert files indexKey (strip c)
      | none =>
        match searchLang "htm".toList response with
        | some c => dinsert files indexKey (strip c)
        | none => files

/-- The `css`/`CSS` language patterns, filling `styles.css` when neither
`styles.css` nor `style.css` is present. -/
def step2css (response : Str) (files : FDict) : FDict :=
  if dmem files stylesKey || dmem files styleKey then files
  else
    match searchLang "css".toList response with
    | some c => dinsert files stylesKey (strip c)
    | none =>
      match searchLang "CSS".toList response with
      | some c => dinsert files stylesKey (strip c)
      | none => files

/-- The `javascript`/`js`/`JavaScript`/`JS` language patterns, filling
`script.js` when neither `script.js` nor `app.js` is present. -/
def step2js (response : Str) (files : FDict) : FDict :=
  if dmem files scriptKey || dmem files appKey then files
  else
    match searchLang "javascript".toList response with
    | some c => dinsert files scriptKey (strip c)
    | none =>
      match searchLang "js".toList response with
      | some c => dinsert files scriptKey (strip c)
      | none =>
        match searchLang "JavaScript".toList response with
        | some c => dinsert files scriptKey (strip c)
        | none =>
          match searchLang "JS".toList response with
          | some c => dinsert files scriptKey (strip c)
          | none => files

def wrapHead : String := "<!DOCTYPE html>
<html lang=\"en\">
<head>
    <meta charset=\"UTF-8\">
    <meta name=\"viewport\" content=\"width=device-width, initial-scale=1.0\">
    <title>Generated App</title>
    <script src=\"https://cdn.tailwindcss.com\"></script>
</head>
<body class=\"bg-gray-100 min-h-screen\">
    <div id=\"app\" class=\"container mx-auto p-4\">
        <script>"

def wrapTail : String := "</script>
    </div>
</body>
</html>"

/-- The minimal HTML document of fallback 3 that embeds non-markup content as
an inline script. -/
def wrapHtml (content : Str) : Str :=
  wrapHead.toList ++ content ++ wrapTail.toList

def placeholderHead : String := "<!DOCTYPE html>
<html lang=\"en\">
<head>
    <meta charset=\"UTF-8\">
    <meta name=\"viewport\" content=\"width=device-width, initial-scale=1.0\">
    <title>Generated App</title>
    <script src=\"https://cdn.tailwindcss.com\"></script>
</head>
<body class=\"bg-gray-100 min-h-screen flex items-center justify-center\">
    <div class=\"bg-white p-8 rounded-lg shadow-lg max-w-2xl\">
        <h1 class=\"text-2xl font-bold mb-4\">Generated Content</h1>
        <pre class=\"bg-gray-100 p-4 rounded overflow-auto text-sm\">"

def placeholderTail : String := "</pre>
    </div>
</body>
</html>"

/-- The placeholder document of the ultimate fallback, rendering
`response[:2000]` as preformatted text. -/
def placeholderHtml (response : Str) : Str :=
  placeholderHead.toList ++ response.take 2000 ++ placeholderTail.toList

def startsWith (s t : Str) : Bool := t.isPrefixOf s

/-- Fallback: when no files were found, take the first generic fenced block;
markup-looking content is used verbatim as `index.html`, otherwise it is
wrapped in a minimal HTML document. -/
def step3 (response : Str) (files : FDict) : FDict :=
  if files.isEmpty then
    match searchGeneric response with
    | some c =>
      let content := strip c
      if startsWith content doctypeTag || startsWith content htmlOpenTag
          || content.contains '<' then
        dinsert files indexKey content
      else
        dinsert files indexKey (wrapHtml content)
    | none => files
  else files

/-- Ultimate fallback: slice the raw response from a doctype/html tag, else
synthesize the placeholder document. -/
def step4 (response : Str) (files : FDict) : FDict :=
  if files.isEmpty then
    if containsSub response doctypeTag || containsSub response htmlOpenTag then
      match findSub doctypeTag response with
      | some i => dinsert files indexKey (strip (response.drop i))
      | none =>
        match findSub htmlOpenTag response with
        | some i => dinsert files indexKey (strip (response.drop i))
        | none => files
    else
      dinsert files indexKey (placeholderHtml response)
  else files

/-- `WebCodeAgent._parse_web_files` over `List Char`. -/
def parseWebFilesCore (response : Str) : FDict :=
  step4 response (step3 response (step2js response (step2css response
    (step2html response (step1 response)))))

/-- `WebCodeAgent._parse_web_files`: multi-file resolver on `String`. -/
def parseWebFiles (response : String) : List (String × String) :=
  (parseWebFilesCore response.toList).map (fun p => (String.mk p.1, String.mk p.2))

/-- A response consisting of a single fenced block with the given language tag. -/
def mkTagResponse (tag body : String) : String :=
  String.mk fenceStr ++ tag ++ "\n" ++ body ++ "\n" ++ String.mk fenceStr

/-! ### `KolosalClient._extract_code` -/

/-- One attempted match of `rf"```{language}\n?(.*?)```"` (DOTALL, IGNORECASE)
at the head of `s`, the language tag taken literally. -/
def tryExtractAt (lang : Str) (s : Str) : Option Str :=
  if fenceStr.isPrefixOf s && isPrefixOfCI lang (s.drop 3) then
    let after := s.drop (3 + lang.length)
    let cstart :=
      match after with
      | '\n' :: rest => rest
      | _ => after
    match splitOnFence cstart with
    | some (content, _) => some content
    | none => none
  else none

def searchExtract (lang : Str) : Str → Option Str
  | [] => none
  | c :: cs =>
    match tryExtractAt lang (c :: cs) with
    | some r => some r
    | none => searchExtract lang cs

/-- One attempted match of `r"```\n?(.*?)```"` (DOTALL) at the head of `s`. -/
def tryExtractGenericAt (s : Str) : Option Str :=
  if fenceStr.isPrefixOf s then
    let after := s.drop 3
    let cstart :=
      match after with
      | '\n' :: rest => rest
      | _ => after
    match splitOnFence cstart with
    | some (content, _) => some content
    | none => none
  else none

def searchExtractGeneric : Str → Option Str
  | [] => none
  | c :: cs =>
    match tryExtractGenericAt (c :: cs) with
    | some r => some r
    | none => searchExtractGeneric cs

/-- The special characters of Python `re` (outside a character class).  A
language tag containing any of these is not matched as a literal by the
interpolated pattern of `_extract_code`. -/
def isReMeta (c : Char) : Bool :=
  c = '.' || c = '^' || c = '$' || c = '*' || c = '+' || c = '?' ||
  c = Char.ofNat 123 || c = Char.ofNat 125 || c = '[' || c = ']' ||
  c = '(' || c = ')' || c = '|' || c = '\\'

/-- A language tag every regex engine treats as the literal tag text:
no `re` metacharacter at all. -/
def langTagLiteral (lang : Str) : Bool :=
  lang.all (fun c => !(isReMeta c))

/-- Modelled from Python `re`: scanning the language fragment as it sits
interpolated in `rf"```{language}\n?(.*?)```"`, tracking group depth, a
character-class context (where a `]` right after `[` or `[^` is a literal
member), and backslash escapes.  The fragment makes `re.compile` raise
`re.error` exactly when it closes a group that is not open, or leaves a group
or character class unterminated: the fixed suffix of the template closes no
group of the fragment and contains no `]`.  (Quantifier placement is version
dependent in Python and is not classified here; no theorem relies on it.)
The last argument records that the previous character was an unescaped
backslash, so the current character is a literal; a trailing backslash merges
with the template's following `\` into an escaped backslash and is valid. -/
def reFragScan : Str → Nat → Bool → Bool → Bool → Bool
  | [], depth, inClass, _, _ => inClass || decide (0 < depth)
  | c :: rest, depth, inClass, atStart, esc =>
    if esc then reFragScan rest depth inClass false false
    else if c = '\\' then reFragScan rest depth inClass false true
    else if inClass then
      if c = ']' then
        if atStart then reFragScan rest depth true false false
        else reFragScan rest depth false false false
      else if c = '^' && atStart then reFragScan rest depth true true false
      else reFragScan rest depth true false false
    else if c = '(' then reFragScan rest (depth + 1) false false false
    else if c = ')' then
      if depth = 0 then true else reFragScan rest (depth - 1) false false false
    else if c = '[' then reFragScan rest depth true true false
    else reFragScan rest depth false false false

/-- Does interpolating this language into the `_extract_code` pattern make
`re.compile` (and hence `re.search`) raise `re.error`? -/
def reFragmentUnbalanced (lang : Str) : Bool :=
  reFragScan lang 0 false false false

def reErrorMsg : String := "re.error: unbalanced or unterminated group or character set"

structure ExtractResult where
  code : String
  language : String
  raw_response : String
deriving DecidableEq

/-- `KolosalClient._extract_code`: the language is interpolated unescaped into
`rf"```{language}\n?(.*?)```"`, so `re.search` raises `re.error` when the
fragment is unbalanced (`.error` here); otherwise search the language-tagged
block first, then a generic block, else return the whole response stripped.
The tag is matched literally (case-insensitively); for tags that compile to a
non-literal regex this is an approximation, and every theorem below restricts
to metacharacter-free tags. -/
def extract_code (response language : String) : Except String ExtractResult :=
  if reFragmentUnbalanced language.toList then .error reErrorMsg
  else
    match searchExtract language.toList response.toList with
    | some c => .ok ⟨String.mk (strip c), language, response⟩
    | none =>
      match searchExtractGeneric response.toList with
      | some c => .ok ⟨String.mk (strip c), language, response⟩
      | none => .ok ⟨String.mk (strip response.toList), language, response⟩

/-! ### `CodeAgent.run` and the auto-fix loop -/

structure ExecResult where
  stdout : String
  stderr : String
  exit_code : Int
deriving DecidableEq

/-- The collaborators of `CodeAgent.run`: `llm.generate_code(prompt)["code"]`,
`llm.analyze_error(code, stderr)["code"]`, and `sandbox.execute_code`. -/
structure RunEnv where
  generate : String → String
  fix : String → String → String
  execute : String → ExecResult

def MAX_RETRIES : Nat := 3

/-- The counted `while auto_fix and stderr and retries < MAX_RETRIES` loop of
`CodeAgent.run`, with the budget `MAX_RETRIES - retries` made explicit; the
early `break` on empty stderr coincides with the loop entry condition.
Returns (code, exec_result, retries). -/
def autoFixGo (env : RunEnv) : Nat → String → ExecResult → Nat → String × ExecResult × Nat
  | 0, code, res, retries => (code, res, retries)
  | b + 1, code, res, retries =>
    if res.stderr ≠ "" then
      autoFixGo env b (env.fix code res.stderr)
        (env.execute (env.fix code res.stderr)) (retries + 1)
    else (code, res, retries)

structure RunResult where
  prompt : String
  code : String
  language : String
  output : String
  errors : String
  exit_code : Int
  retries : Nat
deriving DecidableEq

/-- `CodeAgent.run(prompt, language, auto_fix)`. -/
def run (env : RunEnv) (prompt language : String) (auto_fix : Bool) : RunResult :=
  let code := env.generate prompt
  let res := env.execute code
  let t := if auto_fix then autoFixGo env MAX_RETRIES code res 0 else (code, res, 0)
  { prompt := prompt
    code := t.1
    language := language
    output := t.2.1.stdout
    errors := t.2.1.stderr
    exit_code := t.2.1.exit_code
    retries := t.2.2 }

/-! ### `WebCodeAgent` state: file store, workspace and preview server -/

structure HistItem where
  action : String
  prompt : String
  files : List String
  raw_response : Option String
deriving DecidableEq

/-- The mutable state of a `WebCodeAgent`, together with a model of the
sandbox workspace directory (`workspace` records, per filename, the content
most recently uploaded via `sandbox.upload_file`). -/
structure AgentState where
  sandbox : Bool
  project_files : List (String × String)
  workspace : List (String × String)
  server_running : Bool
  history : List HistItem
deriving DecidableEq

def initAgent : AgentState :=
  { sandbox := false
    project_files := []
    workspace := []
    server_running := false
    history := [] }

/-- `CodeAgent._ensure_sandbox` (+ `_setup_workspace`): creating a sandbox
yields a fresh, empty workspace directory. -/
def ensure_sandbox (s : AgentState) : AgentState :=
  if s.sandbox then s else { s with sandbox := true, workspace := [] }

/-- One iteration of the upload loop of `generate_web_code`/`stream_generate`:
`sandbox.upload_file(path, content)` then `project_files[filename] = content`. -/
def uploadOne (s : AgentState) (filename content : String) : AgentState :=
  { s with
    workspace := dinsert s.workspace filename content
    project_files := dinsert s.project_files filename content }

def uploadFiles : AgentState → List (String × String) → AgentState
  | s, [] => s
  | s, fc :: rest => uploadFiles (uploadOne s fc.1 fc.2) rest

/-- `WebCodeAgent.generate_web_code` (batch mode), with the LLM response given
as an oracle input; returns the new state and the parsed file mapping. -/
def generate_web_code (s : AgentState) (prompt response : String) :
    AgentState × List (String × String) :=
  let files := parseWebFiles response
  let s1 := ensure_sandbox s
  let s2 := uploadFiles s1 files
  ({ s2 with history := s2.history ++
      [⟨"generate_web", prompt, files.map Prod.fst, some response⟩] }, files)

/-- The state effect of a completed `WebCodeAgent.stream_generate` generator:
parse the accumulated response, upload every file, then append the history
turn. -/
def stream_generate_effect (s : AgentState) (prompt response : String) : AgentState :=
  let files := parseWebFiles response
  let s2 := uploadFiles (ensure_sandbox s) files
  { s2 with history := s2.history ++
      [⟨"generate_web", prompt, files.map Prod.fst, none⟩] }

/-- `WebCodeAgent.get_project_files`. -/
def get_project_files (s : AgentState) : List String :=
  s.project_files.map Prod.fst

/-- `WebCodeAgent.get_file_content`. -/
def get_file_content (s : AgentState) (filename : String) : Option String :=
  dlookup s.project_files filename

/-- `WebCodeAgent.update_file`: a silent no-op without a sandbox, otherwise
upload to the workspace and update the file store. -/
def update_file (s : AgentState) (filename content : String) : AgentState :=
  if !s.sandbox then s
  else
    { s with
      workspace := dinsert s.workspace filename content
      project_files := dinsert s.project_files filename content }

inductive SandboxEffect where
  | exec (cmd : String)
  | sleep (seconds : Nat)
deriving DecidableEq

def killServerCmd : String := "pkill -f \x27python3 -m http.server\x27 2>/dev/null || true"

def startServerCmd : String :=
  "cd /home/daytona/project && nohup python3 -m http.server 8000 > /dev/null 2>&1 &"

/-- `WebCodeAgent.start_preview_server`, returning the updated state and the
trace of sandbox commands and settle waits it issues. -/
def start_preview_server (s : AgentState) : AgentState × List SandboxEffect :=
  if s.server_running then (s, [])
  else if !s.sandbox then (s, [])
  else
    ({ s with server_running := true },
     [SandboxEffect.exec killServerCmd, SandboxEffect.exec startServerCmd,
      SandboxEffect.sleep 1])

/-- The session-level operations that mutate the file store or workspace. -/
inductive Op where
  | genWeb (prompt response : String)
  | streamGen (prompt response : String)
  | updateFile (filename content : String)
  | preview
deriving DecidableEq

def applyOp (s : AgentState) : Op → AgentState
  | .genWeb p r => (generate_web_code s p r).1
  | .streamGen p r => stream_generate_effect s p r
  | .updateFile n c => update_file s n c
  | .preview => (start_preview_server s).1

/-- The cache invariant: the file store mirrors the workspace, and without a
sandbox no file has ever been stored. -/
def Inv (s : AgentState) : Prop :=
  s.project_files = s.workspace ∧ (s.sandbox = false → s.project_files = [])

/-! ### The websocket `chat` turn (`src/api/websocket.py`) -/

inductive Ev where
  | token (content : String)
  | code (filename content : String)
  | preview (url tok : String)
  | complete (files : List String)
  | error (msg : String)
deriving DecidableEq

def isError : Ev → Bool
  | .error _ => true
  | _ => false

def isComplete : Ev → Bool
  | .complete _ => true
  | _ => false

/-- Where, if anywhere, an exception interrupts the
stream → resolve → upload → deploy → preview sequence of one chat turn. -/
inductive Fail where
  | atToken (t : Nat) (msg : String)
  | atUpload (k : Nat) (msg : String)
  | atDeploy (msg : String)
  | ok
deriving DecidableEq

/-- The `chat` branch of `websocket_endpoint` for one turn: iterate
`stream_generate` forwarding its `token` and `code` events, then deploy, then
an optional `preview` event, then `complete`; any exception is caught by the
surrounding handler which sends a single `error` event and stops.
`chunks` are the LLM stream fragments, `pv` the preview descriptor. -/
def wsChatTurn (s : AgentState) (prompt : String) (chunks : List String)
    (pv : Option (String × String)) (f : Fail) : AgentState × List Ev :=
  match f with
  | .atToken t msg =>
    (s, (chunks.take t).map Ev.token ++ [Ev.error msg])
  | .atUpload k msg =>
    let files := parseWebFiles (String.join chunks)
    let s1 := uploadFiles (ensure_sandbox s) (files.take k)
    (s1, chunks.map Ev.token
      ++ (files.take k).map (fun fc => Ev.code fc.1 fc.2)
      ++ [Ev.error msg])
  | .atDeploy msg =>
    let files := parseWebFiles (String.join chunks)
    let s1 := stream_generate_effect s prompt (String.join chunks)
    (s1, chunks.map Ev.token
      ++ files.map (fun fc => Ev.code fc.1 fc.2)
      ++ [Ev.error msg])
  | .ok =>
    let files := parseWebFiles (String.join chunks)
    let s1 := stream_generate_effect s prompt (String.join chunks)
    let s2 := (start_preview_server s1).1
    let pevs :=
      match pv with
      | some (u, t) => [Ev.preview u t]
      | none => []
    (s2, chunks.map Ev.token
      ++ files.map (fun fc => Ev.code fc.1 fc.2)
      ++ pevs
      ++ [Ev.complete (get_project_files s2)])

/-- Where, if anywhere, an exception interrupts the batch `/chat` route
(`routes.py`): the turn runs `generate_web_code` (LLM call, parse, per-file
upload, history append) and then `deploy_and_preview`. -/
inductive BatchFail where
  | atLLM (msg : String)
  | atUpload (k : Nat) (msg : String)
  | atDeploy (msg : String)
  | ok
deriving DecidableEq

/-- The state effect of one batch `/chat` request on the session agent.  An
exception during the LLM call leaves the state unchanged; one during the
upload loop leaves the first `k` files uploaded and no history entry; the
history turn is appended at the end of `generate_web_code`, before the route
calls `deploy_and_preview`. -/
def chatRouteTurn (s : AgentState) (prompt response : String) (f : BatchFail) :
    AgentState :=
  match f with
  | .atLLM _ => s
  | .atUpload k _ => uploadFiles (ensure_sandbox s) ((parseWebFiles response).take k)
  | .atDeploy _ => (generate_web_code s prompt response).1
  | .ok => (start_preview_server (generate_web_code s prompt response).1).1

/-! ## Helper lemmas -/

theorem dinsert_ne_nil {α β : Type} [BEq α] (d : List (α × β)) (k : α) (v : β) :
    dinsert d k v ≠ [] := by
  unfold dinsert
  split
  · rename_i hany
    cases d with
    | nil => simp at hany
    | cons p ps => simp
  · simp

theorem dlookup_dinsert_self {α β : Type} [BEq α] [LawfulBEq α]
    (d : List (α × β)) (k : α) (v : β) :
    dlookup (dinsert d k v) k = some v := by
  induction d with
  | nil => simp [dinsert, dlookup]
  | cons p ps ih =>
    by_cases hk : p.1 == k
    · have hany : (p :: ps).any (fun q => q.1 == k) = true := by
        simp [List.any_cons, hk]
      unfold dinsert
      rw [if_pos hany]
      simp only [List.map_cons, if_pos hk]
      simp [dlookup]
    · by_cases hany : ps.any (fun q => q.1 == k)
      · have hany' : (p :: ps).any (fun q => q.1 == k) = true := by
          simp [List.any_cons, hany]
        unfold dinsert at ih ⊢
        rw [if_pos hany']
        rw [if_pos hany] at ih
        simp only [List.map_cons, if_neg hk]
        simp only [dlookup, if_neg hk]
        exact ih
      · have hany' : (p :: ps).any (fun q => q.1 == k) = false := by
          simp [List.any_cons, hany, hk]
        simp only [Bool.not_eq_true] at hany
        unfold dinsert at ih ⊢
        rw [if_neg (by rw [hany']; simp)]
        rw [if_neg (by rw [hany]; simp)] at ih
        simp only [List.cons_append]
        simp only [dlookup, if_neg hk]
        exact ih

theorem mem_keys_iff_any {α β : Type} [BEq α] [LawfulBEq α]
    (d : List (α × β)) (k : α) :
    k ∈ d.map Prod.fst ↔ d.any (fun p => p.1 == k) = true := by
  induction d with
  | nil => simp
  | cons p ps ih =>
    simp only [List.map_cons, List.mem_cons, List.any_cons, Bool.or_eq_true,
      beq_iff_eq, ih]
    constructor
    · rintro (h | h)
      · exact Or.inl h.symm
      · exact Or.inr h
    · rintro (h | h)
      · exact Or.inl h.symm
      · exact Or.inr h

theorem map_fst_overwrite {α β : Type} [BEq α] [LawfulBEq α]
    (d : List (α × β)) (k : α) (v : β) :
    (d.map (fun p => if p.1 == k then (k, v) else p)).map Prod.fst = d.map Prod.fst := by
  induction d with
  | nil => rfl
  | cons p ps ih =>
    by_cases h : p.1 == k
    · have hpk : p.1 = k := eq_of_beq h
      simp only [List.map_cons, if_pos h]
      rw [ih, hpk]
    · simp only [List.map_cons, if_neg h]
      rw [ih]

theorem keys_dinsert_mem {α β : Type} [BEq α] [LawfulBEq α]
    (d : List (α × β)) (k : α) (v : β) (h : k ∈ d.map Prod.fst) :
    (dinsert d k v).map Prod.fst = d.map Prod.fst := by
  unfold dinsert
  rw [if_pos ((mem_keys_iff_any d k).mp h)]
  exact map_fst_overwrite d k v

theorem keys_dinsert_not_mem {α β : Type} [BEq α] [LawfulBEq α]
    (d : List (α × β)) (k : α) (v : β) (h : k ∉ d.map Prod.fst) :
    (dinsert d k v).map Prod.fst = d.map Prod.fst ++ [k] := by
  unfold dinsert
  rw [if_neg]
  · simp
  · intro hc
    exact h ((mem_keys_iff_any d k).mpr hc)

theorem findSub_cons (t : Str) (c : Char) (cs : Str) :
    findSub t (c :: cs) =
      if t.isPrefixOf (c :: cs) then some 0 else (findSub t cs).map (· + 1) := rfl

theorem containsSub_cons (c : Char) (cs t : Str) :
    containsSub (c :: cs) t = (t.isPrefixOf (c :: cs) || containsSub cs t) := by
  unfold containsSub
  rw [findSub_cons]
  by_cases h : t.isPrefixOf (c :: cs)
  · simp [h]
  · cases hf : findSub t cs <;> simp [h, hf]

theorem containsSub_of_prefix {s t : Str} (h : t.isPrefixOf s = true) :
    containsSub s t = true := by
  cases s <;> simp [containsSub, findSub, h]

theorem fence_prefix_of_append {tag s : Str}
    (h : (fenceStr ++ tag).isPrefixOf s = true) :
    fenceStr.isPrefixOf s = true := by
  rw [List.isPrefixOf_iff_prefix] at h ⊢
  exact (List.prefix_append fenceStr tag).trans h

theorem tryMatchFileBlock_fence {s : Str} {x : Str × Str × Str}
    (h : tryMatchFileBlock s = some x) :
    fenceStr.isPrefixOf s = true := by
  by_cases hp : fenceStr.isPrefixOf s = true
  · exact hp
  · unfold tryMatchFileBlock at h
    simp [hp] at h

theorem tryLangAt_fence {tag : Str} {s : Str} {c : Str}
    (h : tryLangAt tag s = some c) :
    fenceStr.isPrefixOf s = true := by
  by_cases hp : (fenceStr ++ tag).isPrefixOf s = true
  · exact fence_prefix_of_append hp
  · unfold tryLangAt at h
    simp [hp] at h

theorem tryGenericAt_fence {s : Str} {c : Str}
    (h : tryGenericAt s = some c) :
    fenceStr.isPrefixOf s = true := by
  by_cases hp : fenceStr.isPrefixOf s = true
  · exact hp
  · unfold tryGenericAt at h
    simp [hp] at h

theorem tryExtractAt_fence {lang s : Str} {c : Str}
    (h : tryExtractAt lang s = some c) :
    fenceStr.isPrefixOf s = true := by
  by_cases hp : fenceStr.isPrefixOf s = true
  · exact hp
  · unfold tryExtractAt at h
    simp [hp] at h

theorem tryExtractGenericAt_fence {s : Str} {c : Str}
    (h : tryExtractGenericAt s = some c) :
    fenceStr.isPrefixOf s = true := by
  by_cases hp : fenceStr.isPrefixOf s = true
  · exact hp
  · unfold tryExtractGenericAt at h
    simp [hp] at h

theorem containsSub_tail {c : Char} {cs t : Str}
    (h : containsSub (c :: cs) t = false) : containsSub cs t = false := by
  rw [containsSub_cons] at h
  exact (Bool.or_eq_false_iff.mp h).2

theorem not_prefix_of_not_contains {c : Char} {cs t : Str}
    (h : containsSub (c :: cs) t = false) : t.isPrefixOf (c :: cs) = false := by
  rw [containsSub_cons] at h
  exact (Bool.or_eq_false_iff.mp h).1

theorem searchLang_none_of_no_fence (tag : Str) :
    ∀ s : Str, containsSub s fenceStr = false → searchLang tag s = none := by
  intro s
  induction s with
  | nil => intro _; rfl
  | cons c cs ih =>
    intro h
    unfold searchLang
    cases hm : tryLangAt tag (c :: cs) with
    | some r =>
      have := tryLangAt_fence hm
      rw [not_prefix_of_not_contains h] at this
      exact absurd this (by simp)
    | none => exact ih (containsSub_tail h)

theorem searchGeneric_none_of_no_fence :
    ∀ s : Str, containsSub s fenceStr = false → searchGeneric s = none := by
  intro s
  induction s with
  | nil => intro _; rfl
  | cons c cs ih =>
    intro h
    unfold searchGeneric
    cases hm : tryGenericAt (c :: cs) with
    | some r =>
      have := tryGenericAt_fence hm
      rw [not_prefix_of_not_contains h] at this
      exact absurd this (by simp)
    | none => exact ih (containsSub_tail h)

theorem searchExtract_none_of_no_fence (lang : Str) :
    ∀ s : Str, containsSub s fenceStr = false → searchExtract lang s = none := by
  intro s
  induction s with
  | nil => intro _; rfl
  | cons c cs ih =>
    intro h
    unfold searchExtract
    cases hm : tryExtractAt lang (c :: cs) with
    | some r =>
      have := tryExtractAt_fence hm
      rw [not_prefix_of_not_contains h] at this
      exact absurd this (by simp)
    | none => exact ih (containsSub_tail h)

theorem searchExtractGeneric_none_of_no_fence :
    ∀ s : Str, containsSub s fenceStr = false → searchExtractGeneric s = none := by
  intro s
  induction s with
  | nil => intro _; rfl
  | cons c cs ih =>
    intro h
    unfold searchExtractGeneric
    cases hm : tryExtractGenericAt (c :: cs) with
    | some r =>
      have := tryExtractGenericAt_fence hm
      rw [not_prefix_of_not_contains h] at this
      exact absurd this (by simp)
    | none => exact ih (containsSub_tail h)

theorem findFileBlocksAux_nil_of_no_fence :
    ∀ (fuel : Nat) (s : Str), containsSub s fenceStr = false →
      findFileBlocksAux fuel s = [] := by
  intro fuel
  induction fuel with
  | zero => intro s _; rfl
  | succ n ih =>
    intro s h
    cases s with
    | nil => rfl
    | cons c cs =>
      unfold findFileBlocksAux
      cases hm : tryMatchFileBlock (c :: cs) with
      | some x =>
        have := tryMatchFileBlock_fence hm
        rw [not_prefix_of_not_contains h] at this
        exact absurd this (by simp)
      | none => exact ih cs (containsSub_tail h)

theorem step1_nil_of_no_fence (r : Str) (h : containsSub r fenceStr = false) :
    step1 r = [] := by
  unfold step1 findFileBlocks
  rw [findFileBlocksAux_nil_of_no_fence r.length r h]
  rfl

theorem step2html_nil_of_no_fence (r : Str) (h : containsSub r fenceStr = false) :
    step2html r [] = [] := by
  unfold step2html
  rw [searchLang_none_of_no_fence ("html".toList) r h,
      searchLang_none_of_no_fence ("HTML".toList) r h,
      searchLang_none_of_no_fence ("htm".toList) r h]
  rfl

theorem step2css_nil_of_no_fence (r : Str) (h : containsSub r fenceStr = false) :
    step2css r [] = [] := by
  unfold step2css
  rw [searchLang_none_of_no_fence ("css".toList) r h,
      searchLang_none_of_no_fence ("CSS".toList) r h]
  rfl

theorem step2js_nil_of_no_fence (r : Str) (h : containsSub r fenceStr = false) :
    step2js r [] = [] := by
  unfold step2js
  rw [searchLang_none_of_no_fence ("javascript".toList) r h,
      searchLang_none_of_no_fence ("js".toList) r h,
      searchLang_none_of_no_fence ("JavaScript".toList) r h,
      searchLang_none_of_no_fence ("JS".toList) r h]
  rfl

theorem step3_nil_of_no_fence (r : Str) (h : containsSub r fenceStr = false) :
    step3 r [] = [] := by
  unfold step3
  rw [searchGeneric_none_of_no_fence r h]
  rfl

theorem step4_ne_nil (r : Str) (fs : FDict) : step4 r fs ≠ [] := by
  unfold step4
  by_cases hfs : fs.isEmpty
  · rw [if_pos hfs]
    by_cases hc : (containsSub r doctypeTag || containsSub r htmlOpenTag) = true
    · rw [if_pos hc]
      cases hd : findSub doctypeTag r with
      | some i => exact dinsert_ne_nil _ _ _
      | none =>
        cases hh : findSub htmlOpenTag r with
        | some i => exact dinsert_ne_nil _ _ _
        | none =>
          exfalso
          simp [containsSub, hd, hh] at hc
    · rw [if_neg hc]
      exact dinsert_ne_nil _ _ _
  · rw [if_neg hfs]
    intro hnil
    rw [hnil] at hfs
    simp at hfs

theorem parseWebFilesCore_ne_nil (r : Str) : parseWebFilesCore r ≠ [] := by
  unfold parseWebFilesCore
  exact step4_ne_nil _ _

theorem step4_nil_index (r : Str) : indexKey ∈ (step4 r []).map Prod.fst := by
  unfold step4
  rw [if_pos (by rfl)]
  by_cases hc : (containsSub r doctypeTag || containsSub r htmlOpenTag) = true
  · rw [if_pos hc]
    cases hd : findSub doctypeTag r with
    | some i => simp [dinsert]
    | none =>
      cases hh : findSub htmlOpenTag r with
      | some i => simp [dinsert]
      | none =>
        exfalso
        simp [containsSub, hd, hh] at hc
  · rw [if_neg hc]
    simp [dinsert]

theorem parse_core_no_fence_index (r : Str) (h : containsSub r fenceStr = false) :
    indexKey ∈ (parseWebFilesCore r).map Prod.fst := by
  unfold parseWebFilesCore
  rw [step1_nil_of_no_fence r h, step2html_nil_of_no_fence r h,
      step2css_nil_of_no_fence r h, step2js_nil_of_no_fence r h,
      step3_nil_of_no_fence r h]
  exact step4_nil_index r

/-! ## Claim theorems -/

/-- C1 (amended): `_parse_web_files` always returns a non-empty mapping, and
for every input containing no fenced block (in particular the empty string,
whitespace-only strings, and text with no fences) the mapping contains an
"index.html" entry.  (The original claim that every input yields an
"index.html" key is refuted by `parse_web_files_index_cex`.) -/
theorem parse_web_files_total_amended (response : String) :
    parseWebFiles response ≠ [] ∧
    (containsSub response.toList fenceStr = false →
      "index.html" ∈ (parseWebFiles response).map Prod.fst) := by
  constructor
  · unfold parseWebFiles
    cases hcore : parseWebFilesCore response.toList with
    | nil => exact absurd hcore (parseWebFilesCore_ne_nil _)
    | cons p ps => simp
  · intro h
    have hcore := parse_core_no_fence_index response.toList h
    unfold parseWebFiles
    rcases List.mem_map.mp hcore with ⟨p, hp, hfst⟩
    refine List.mem_map.mpr ⟨(String.mk p.1, String.mk p.2), ?_, ?_⟩
    · exact List.mem_map.mpr ⟨p, hp, rfl⟩
    · show String.mk p.1 = "index.html"
      rw [hfst]
      rfl

/-- C1 witness: a fence-free input yields an "index.html" entry. -/
theorem parse_web_files_total_amended_witness :
    "index.html" ∈ (parseWebFiles "hello there").map Prod.fst :=
  (parse_web_files_total_amended "hello there").2 (by decide)

/-- C1 counterexample: a response whose only fenced block is an explicit
`styles.css` file yields a non-empty mapping with no "index.html" key,
refuting the claim that every input produces one. -/
theorem parse_web_files_index_cex :
    parseWebFiles "```styles.css\nbody\n```" = [("styles.css", "body")] ∧
    "index.html" ∉ (parseWebFiles "```styles.css\nbody\n```").map Prod.fst := by
  decide

/-- C2 counterexample: for the response "Sure! ```js\nconsole.log(1)\n```"
the resolver does not synthesize any "index.html" entry, refuting the claim
that fallback rule 3 fires in this scenario. -/
theorem js_only_block_index_cex :
    "index.html" ∉ (parseWebFiles "Sure! \x60\x60\x60js\nconsole.log(1)\n\x60\x60\x60").map Prod.fst := by
  decide

/-- C2 (amended): for a response whose only fenced block is a js-tagged block,
the resolver output is exactly `script.js` mapped to the block content; no
"index.html" wrapper is synthesized because fallback rule 3 only applies when
the mapping is still empty. -/
theorem js_only_block_amended :
    parseWebFiles "Sure! \x60\x60\x60js\nconsole.log(1)\n\x60\x60\x60" =
      [("script.js", "console.log(1)")] := by
  decide

/-- C7 counterexample: the mixed-case language tag "Css" is not recognized
(the css patterns are the case-sensitive literals `css` and `CSS`), while the
lowercase tag is, refuting case-insensitive tag handling. -/
theorem language_tag_case_cex :
    "styles.css" ∉ (parseWebFiles (mkTagResponse "Css" "color: red")).map Prod.fst ∧
    "styles.css" ∈ (parseWebFiles (mkTagResponse "css" "color: red")).map Prod.fst := by
  decide

/-- C7 (amended): exactly the literal tag variants html/HTML/htm, css/CSS and
javascript/js/JavaScript/JS are recognized and assigned to the corresponding
default filename; other case variants (e.g. "Css", "jS") are not. -/
theorem language_tag_exact_variants :
    (∀ tag ∈ (["html", "HTML", "htm"] : List String),
      parseWebFiles (mkTagResponse tag "<p>hi</p>") = [("index.html", "<p>hi</p>")]) ∧
    (∀ tag ∈ (["css", "CSS"] : List String),
      parseWebFiles (mkTagResponse tag "color: red") = [("styles.css", "color: red")]) ∧
    (∀ tag ∈ (["javascript", "js", "JavaScript", "JS"] : List String),
      parseWebFiles (mkTagResponse tag "console.log(1)") = [("script.js", "console.log(1)")]) := by
  refine ⟨?_, ?_, ?_⟩ <;> intro tag htag <;> fin_cases htag <;> decide

/-- C7 witness: the lowercase html tag is assigned to "index.html". -/
theorem language_tag_exact_variants_witness :
    parseWebFiles (mkTagResponse "html" "<p>hi</p>") = [("index.html", "<p>hi</p>")] :=
  language_tag_exact_variants.1 "html" (by decide)

theorem reFragScan_literal :
    ∀ lang : Str, lang.all (fun c => !(isReMeta c)) = true →
      reFragScan lang 0 false false false = false := by
  intro lang
  induction lang with
  | nil =>
    intro _
    rfl
  | cons c cs ih =>
    intro h
    rw [List.all_cons, Bool.and_eq_true] at h
    obtain ⟨h1, h2⟩ := h
    have hc : isReMeta c = false := by
      cases hm : isReMeta c
      · rfl
      · rw [hm] at h1
        simp at h1
    have hbs : ¬(c = '\\') := by
      intro he
      rw [he] at hc
      simp [isReMeta] at hc
    have hlp : ¬(c = '(') := by
      intro he
      rw [he] at hc
      simp [isReMeta] at hc
    have hrp : ¬(c = ')') := by
      intro he
      rw [he] at hc
      simp [isReMeta] at hc
    have hlb : ¬(c = '[') := by
      intro he
      rw [he] at hc
      simp [isReMeta] at hc
    show reFragScan (c :: cs) 0 false false false = false
    unfold reFragScan
    rw [if_neg Bool.false_ne_true, if_neg hbs, if_neg Bool.false_ne_true,
      if_neg hlp, if_neg hrp, if_neg hlb]
    exact ih h2

/-- C10 counterexample: `_extract_code` is not total over all languages: the
language is interpolated unescaped into the regex, so for language "(" the
pattern has an unterminated group and `re.search` raises `re.error` instead
of returning a result. -/
theorem extract_code_raises_cex :
    extract_code "print(1)" "(" = Except.error reErrorMsg := by
  rfl

/-- C10 (amended): for every response and every language containing no regex
metacharacter, `_extract_code` returns normally with a result carrying the
requested language and the raw response, and when the response contains no
fenced block at all the code field is the whole response stripped.  (For a
language whose interpolated fragment is unbalanced the call raises instead:
`extract_code_raises_cex`.) -/
theorem extract_code_total_amended (response language : String)
    (h : langTagLiteral language.toList = true) :
    ((extract_code response language).map (fun r => r.language) =
      Except.ok language) ∧
    ((extract_code response language).map (fun r => r.raw_response) =
      Except.ok response) ∧
    (containsSub response.toList fenceStr = false →
      (extract_code response language).map (fun r => r.code) =
        Except.ok (String.mk (strip response.toList))) := by
  have hnb : reFragmentUnbalanced language.toList = false := by
    unfold reFragmentUnbalanced
    unfold langTagLiteral at h
    exact reFragScan_literal language.toList h
  refine ⟨?_, ?_, ?_⟩
  · unfold extract_code
    rw [hnb, if_neg Bool.false_ne_true]
    cases searchExtract language.toList response.toList with
    | some c => rfl
    | none =>
      cases searchExtractGeneric response.toList with
      | some c => rfl
      | none => rfl
  · unfold extract_code
    rw [hnb, if_neg Bool.false_ne_true]
    cases searchExtract language.toList response.toList with
    | some c => rfl
    | none =>
      cases searchExtractGeneric response.toList with
      | some c => rfl
      | none => rfl
  · intro hnf
    unfold extract_code
    rw [hnb, if_neg Bool.false_ne_true,
        searchExtract_none_of_no_fence language.toList response.toList hnf,
        searchExtractGeneric_none_of_no_fence response.toList hnf]
    rfl

/-- C10 witness: a fence-free response with a metacharacter-free language is
returned whole, stripped. -/
theorem extract_code_total_amended_witness :
    (extract_code "no code here " "python").map (fun r => r.code) =
      Except.ok (String.mk (strip "no code here ".toList)) :=
  (extract_code_total_amended "no code here " "python" (by decide)).2.2 (by decide)

theorem auto_fix_go_spec (env : RunEnv) (h : ∀ c, (env.execute c).stderr ≠ "") :
    ∀ (b : Nat) (code : String) (res : ExecResult) (retries : Nat),
      res.stderr ≠ "" →
      (autoFixGo env b code res retries).2.2 = retries + b ∧
      (autoFixGo env b code res retries).2.1.stderr ≠ "" := by
  intro b
  induction b with
  | zero =>
    intro code res retries hres
    exact ⟨rfl, hres⟩
  | succ n ih =>
    intro code res retries hres
    simp only [autoFixGo]
    rw [if_pos hres]
    have hs := ih (env.fix code res.stderr)
      (env.execute (env.fix code res.stderr)) (retries + 1) (h _)
    refine ⟨?_, hs.2⟩
    rw [hs.1]
    omega

/-- C6: when every execution produces non-empty stderr, `run` with
auto_fix performs exactly `MAX_RETRIES = 3` regeneration attempts, terminates,
and reports `retries = 3` with non-empty errors. -/
theorem auto_fix_loop_bound (env : RunEnv) (prompt language : String)
    (h : ∀ c, (env.execute c).stderr ≠ "") :
    (run env prompt language true).retries = 3 ∧
    (run env prompt language true).errors ≠ "" := by
  have hs := auto_fix_go_spec env h MAX_RETRIES (env.generate prompt)
    (env.execute (env.generate prompt)) 0 (h _)
  constructor
  · show (autoFixGo env MAX_RETRIES (env.generate prompt)
      (env.execute (env.generate prompt)) 0).2.2 = 3
    rw [hs.1]
    decide
  · show (autoFixGo env MAX_RETRIES (env.generate prompt)
      (env.execute (env.generate prompt)) 0).2.1.stderr ≠ ""
    exact hs.2

/-- C6 witness: with a sandbox whose every execution fails, `run` reports
three retries. -/
theorem auto_fix_loop_bound_witness :
    (run ⟨fun _ => "print(1)", fun c _ => c, fun _ => ⟨"", "boom", 1⟩⟩
      "p" "python" true).retries = 3 :=
  (auto_fix_loop_bound ⟨fun _ => "print(1)", fun c _ => c, fun _ => ⟨"", "boom", 1⟩⟩
    "p" "python" (fun c => by show ("boom" : String) ≠ ""; decide)).1

/-- C8: writing through `update_file` then reading back via
`get_file_content` returns the written content, and `get_project_files`
lists names in first-write order, a rewrite keeping its position.  The
hypothesis `s.sandbox = true` reflects that every live session's sandbox is
created when the session is. -/
theorem file_store_round_trip (s : AgentState) (n c : String)
    (h : s.sandbox = true) :
    get_file_content (update_file s n c) n = some c ∧
    (n ∈ get_project_files s →
      get_project_files (update_file s n c) = get_project_files s) ∧
    (n ∉ get_project_files s →
      get_project_files (update_file s n c) = get_project_files s ++ [n]) := by
  have hupd : update_file s n c =
      { s with
        workspace := dinsert s.workspace n c
        project_files := dinsert s.project_files n c } := by
    unfold update_file
    rw [h]
    rfl
  rw [hupd]
  refine ⟨?_, ?_, ?_⟩
  · exact dlookup_dinsert_self s.project_files n c
  · intro hmem
    exact keys_dinsert_mem s.project_files n c hmem
  · intro hmem
    exact keys_dinsert_not_mem s.project_files n c hmem

/-- C8 witness: round trip on a fresh agent with a sandbox. -/
theorem file_store_round_trip_witness :
    get_file_content (update_file ⟨true, [], [], false, []⟩ "app.js" "let x = 1")
      "app.js" = some "let x = 1" :=
  (file_store_round_trip ⟨true, [], [], false, []⟩ "app.js" "let x = 1" rfl).1

/-- C9: when the first `start_preview_server` call leaves the server marked
running, a second call is a no-op: same state, no sandbox command (neither
kill nor start) and no settle wait. -/
theorem preview_server_idempotent (s : AgentState)
    (h : ((start_preview_server s).1).server_running = true) :
    start_preview_server ((start_preview_server s).1) =
      ((start_preview_server s).1, []) := by
  generalize hu : (start_preview_server s).1 = u at h ⊢
  unfold start_preview_server
  rw [if_pos h]

/-- C9 witness: second call on an agent with a sandbox is a no-op. -/
theorem preview_server_idempotent_witness :
    start_preview_server ((start_preview_server ⟨true, [], [], false, []⟩).1) =
      ((start_preview_server ⟨true, [], [], false, []⟩).1, []) :=
  preview_server_idempotent ⟨true, [], [], false, []⟩ (by decide)

theorem ensure_sandbox_sandbox (s : AgentState) : (ensure_sandbox s).sandbox = true := by
  unfold ensure_sandbox
  split
  · rename_i hs
    exact hs
  · rfl

theorem ensure_sandbox_history (s : AgentState) :
    (ensure_sandbox s).history = s.history := by
  unfold ensure_sandbox
  split <;> rfl

theorem ensure_sandbox_pf_eq_ws {s : AgentState} (h : Inv s) :
    (ensure_sandbox s).project_files = (ensure_sandbox s).workspace := by
  unfold ensure_sandbox
  split
  · exact h.1
  · rename_i hs
    have hfalse : s.sandbox = false := by
      cases hb : s.sandbox
      · rfl
      · exact absurd hb hs
    exact h.2 hfalse

theorem uploadFiles_pf_eq_ws :
    ∀ (files : List (String × String)) (s : AgentState),
      s.project_files = s.workspace →
      (uploadFiles s files).project_files = (uploadFiles s files).workspace := by
  intro files
  induction files with
  | nil =>
    intro s h
    exact h
  | cons fc rest ih =>
    intro s h
    show (uploadFiles (uploadOne s fc.1 fc.2) rest).project_files =
      (uploadFiles (uploadOne s fc.1 fc.2) rest).workspace
    refine ih _ ?_
    show dinsert s.project_files fc.1 fc.2 = dinsert s.workspace fc.1 fc.2
    rw [h]

theorem uploadFiles_sandbox :
    ∀ (files : List (String × String)) (s : AgentState),
      (uploadFiles s files).sandbox = s.sandbox := by
  intro files
  induction files with
  | nil =>
    intro s
    rfl
  | cons fc rest ih =>
    intro s
    exact ih (uploadOne s fc.1 fc.2)

theorem uploadFiles_history :
    ∀ (files : List (String × String)) (s : AgentState),
      (uploadFiles s files).history = s.history := by
  intro files
  induction files with
  | nil =>
    intro s
    rfl
  | cons fc rest ih =>
    intro s
    exact ih (uploadOne s fc.1 fc.2)

theorem start_preview_server_history (s : AgentState) :
    ((start_preview_server s).1).history = s.history := by
  unfold start_preview_server
  split
  · rfl
  · split <;> rfl

theorem inv_applyOp (s : AgentState) (op : Op) (h : Inv s) : Inv (applyOp s op) := by
  cases op with
  | genWeb p r =>
    constructor
    · show (uploadFiles (ensure_sandbox s) (parseWebFiles r)).project_files =
        (uploadFiles (ensure_sandbox s) (parseWebFiles r)).workspace
      exact uploadFiles_pf_eq_ws _ _ (ensure_sandbox_pf_eq_ws h)
    · intro hsb
      have htrue : (uploadFiles (ensure_sandbox s) (parseWebFiles r)).sandbox = true := by
        rw [uploadFiles_sandbox, ensure_sandbox_sandbox]
      have hsb' : (uploadFiles (ensure_sandbox s) (parseWebFiles r)).sandbox = false := hsb
      rw [htrue] at hsb'
      cases hsb'
  | streamGen p r =>
    constructor
    · show (uploadFiles (ensure_sandbox s) (parseWebFiles r)).project_files =
        (uploadFiles (ensure_sandbox s) (parseWebFiles r)).workspace
      exact uploadFiles_pf_eq_ws _ _ (ensure_sandbox_pf_eq_ws h)
    · intro hsb
      have htrue : (uploadFiles (ensure_sandbox s) (parseWebFiles r)).sandbox = true := by
        rw [uploadFiles_sandbox, ensure_sandbox_sandbox]
      have hsb' : (uploadFiles (ensure_sandbox s) (parseWebFiles r)).sandbox = false := hsb
      rw [htrue] at hsb'
      cases hsb'
  | updateFile n c =>
    show Inv (update_file s n c)
    by_cases hb : s.sandbox = true
    · have hupd : update_file s n c =
          { s with
            workspace := dinsert s.workspace n c
            project_files := dinsert s.project_files n c } := by
        unfold update_file
        rw [hb]
        rfl
      rw [hupd]
      constructor
      · show dinsert s.project_files n c = dinsert s.workspace n c
        rw [h.1]
      · intro hsb
        have hsb' : s.sandbox = false := hsb
        rw [hb] at hsb'
        cases hsb'
    · have hfalse : s.sandbox = false := by
        cases hbb : s.sandbox
        · rfl
        · exact absurd hbb hb
      have hupd : update_file s n c = s := by
        unfold update_file
        rw [hfalse]
        rfl
      rw [hupd]
      exact h
  | preview =>
    show Inv (start_preview_server s).1
    unfold start_preview_server
    split
    · exact h
    · split
      · exact h
      · rename_i hrun hsb
        constructor
        · exact h.1
        · intro hsb'
          have hsb'' : s.sandbox = false := hsb'
          have htrue : s.sandbox = true := by
            cases hbb : s.sandbox with
            | false =>
              rw [hbb] at hsb
              simp at hsb
            | true => rfl
          rw [htrue] at hsb''
          cases hsb''

theorem inv_foldl : ∀ (ops : List Op) (s : AgentState),
    Inv s → Inv (ops.foldl applyOp s) := by
  intro ops
  induction ops with
  | nil =>
    intro s h
    exact h
  | cons op rest ih =>
    intro s h
    rw [List.foldl_cons]
    exact ih _ (inv_applyOp s op h)

/-- C3: after any sequence of successful generations (batch or streaming),
direct edits and preview starts on a fresh agent, the in-memory
`project_files` store equals the mapping of files most recently uploaded to
the sandbox workspace. -/
theorem project_files_matches_workspace (ops : List Op) :
    (ops.foldl applyOp initAgent).project_files =
      (ops.foldl applyOp initAgent).workspace :=
  (inv_foldl ops initAgent ⟨rfl, fun _ => rfl⟩).1

theorem countP_map_false {α : Type} (p : Ev → Bool) (f : α → Ev)
    (hf : ∀ a, p (f a) = false) (l : List α) : (l.map f).countP p = 0 := by
  induction l with
  | nil => rfl
  | cons a as ih => simp [List.countP_cons, hf, ih]

theorem getLast?_concat_own {α : Type} (l : List α) (a : α) :
    (l ++ [a]).getLast? = some a := by
  induction l with
  | nil => rfl
  | cons x xs ih =>
    cases xs with
    | nil => rfl
    | cons y ys =>
      rw [List.cons_append, List.cons_append, List.getLast?_cons_cons]
      rw [List.cons_append] at ih
      exact ih

/-- C4: whenever an exception interrupts the streaming chat turn (during
streaming, upload, or deploy), the emitted event sequence contains exactly
one `error` event, no `complete` event, and ends with the `error`. -/
theorem stream_error_event_terminal (s : AgentState) (prompt : String)
    (chunks : List String) (pv : Option (String × String)) (f : Fail)
    (hf : f ≠ Fail.ok) :
    ((wsChatTurn s prompt chunks pv f).2.countP isError = 1) ∧
    ((wsChatTurn s prompt chunks pv f).2.countP isComplete = 0) ∧
    (∃ m, (wsChatTurn s prompt chunks pv f).2.getLast? = some (Ev.error m)) := by
  cases f with
  | ok => exact absurd rfl hf
  | atToken t msg =>
    refine ⟨?_, ?_, ⟨msg, ?_⟩⟩
    · show ((chunks.take t).map Ev.token ++ [Ev.error msg]).countP isError = 1
      rw [List.countP_append, countP_map_false isError Ev.token (fun a => rfl)]
      rfl
    · show ((chunks.take t).map Ev.token ++ [Ev.error msg]).countP isComplete = 0
      rw [List.countP_append, countP_map_false isComplete Ev.token (fun a => rfl)]
      rfl
    · show ((chunks.take t).map Ev.token ++ [Ev.error msg]).getLast? =
        some (Ev.error msg)
      exact getLast?_concat_own _ _
  | atUpload k msg =>
    have hev : (wsChatTurn s prompt chunks pv (Fail.atUpload k msg)).2 =
        chunks.map Ev.token ++
          (((parseWebFiles (String.join chunks)).take k).map
            (fun fc => Ev.code fc.1 fc.2) ++ [Ev.error msg]) := by
      simp [wsChatTurn]
    rw [hev]
    refine ⟨?_, ?_, ⟨msg, ?_⟩⟩
    · rw [List.countP_append, List.countP_append,
        countP_map_false isError Ev.token (fun a => rfl),
        countP_map_false isError
          (fun fc : String × String => Ev.code fc.1 fc.2) (fun a => rfl)]
      rfl
    · rw [List.countP_append, List.countP_append,
        countP_map_false isComplete Ev.token (fun a => rfl),
        countP_map_false isComplete
          (fun fc : String × String => Ev.code fc.1 fc.2) (fun a => rfl)]
      rfl
    · rw [← List.append_assoc]
      exact getLast?_concat_own _ _
  | atDeploy msg =>
    have hev : (wsChatTurn s prompt chunks pv (Fail.atDeploy msg)).2 =
        chunks.map Ev.token ++
          ((parseWebFiles (String.join chunks)).map
            (fun fc => Ev.code fc.1 fc.2) ++ [Ev.error msg]) := by
      simp [wsChatTurn]
    rw [hev]
    refine ⟨?_, ?_, ⟨msg, ?_⟩⟩
    · rw [List.countP_append, List.countP_append,
        countP_map_false isError Ev.token (fun a => rfl),
        countP_map_false isError
          (fun fc : String × String => Ev.code fc.1 fc.2) (fun a => rfl)]
      rfl
    · rw [List.countP_append, List.countP_append,
        countP_map_false isComplete Ev.token (fun a => rfl),
        countP_map_false isComplete
          (fun fc : String × String => Ev.code fc.1 fc.2) (fun a => rfl)]
      rfl
    · rw [← List.append_assoc]
      exact getLast?_concat_own _ _

/-- C4 witness: a turn failing at deploy emits exactly one error event. -/
theorem stream_error_event_terminal_witness :
    ((wsChatTurn initAgent "p" ["<h1>x</h1>"] none
      (Fail.atDeploy "boom")).2.countP isError = 1) :=
  (stream_error_event_terminal initAgent "p" ["<h1>x</h1>"] none
    (Fail.atDeploy "boom") (by decide)).1

/-- C5 counterexample: a streaming turn whose deploy step fails emits an
`error` and no `complete` (the turn did not complete successfully), yet the
`generate_web` history entry has already been appended, refuting "on any
failure within the turn, no history entry is appended". -/
theorem history_append_despite_failure_cex :
    ((wsChatTurn initAgent "make a page" ["```index.html\n<h1>Hi</h1>\n```"]
        none (Fail.atDeploy "deploy failed")).1.history.length = 1) ∧
    ((wsChatTurn initAgent "make a page" ["```index.html\n<h1>Hi</h1>\n```"]
        none (Fail.atDeploy "deploy failed")).2.countP isComplete = 0) ∧
    ((wsChatTurn initAgent "make a page" ["```index.html\n<h1>Hi</h1>\n```"]
        none (Fail.atDeploy "deploy failed")).2.countP isError = 1) := by
  decide

/-- C5 (amended): in both modes the `generate_web` history turn is appended
exactly when the generation call itself — batch `generate_web_code`, or the
`stream_generate` generator — runs to completion (parse and uploads done):
failures during the LLM call, streaming, or uploading append nothing, while a
failure in the later deploy/preview(/complete) steps leaves the entry
appended, because the append happens at the end of the generation call,
before deployment. -/
theorem history_append_iff_generation_completes (s : AgentState)
    (prompt response : String) (chunks : List String)
    (pv : Option (String × String)) (msg : String) (t k : Nat) :
    ((wsChatTurn s prompt chunks pv (Fail.atToken t msg)).1.history = s.history) ∧
    ((wsChatTurn s prompt chunks pv (Fail.atUpload k msg)).1.history = s.history) ∧
    ((wsChatTurn s prompt chunks pv (Fail.atDeploy msg)).1.history = s.history ++
      [⟨"generate_web", prompt, (parseWebFiles (String.join chunks)).map Prod.fst, none⟩]) ∧
    ((wsChatTurn s prompt chunks pv Fail.ok).1.history = s.history ++
      [⟨"generate_web", prompt, (parseWebFiles (String.join chunks)).map Prod.fst, none⟩]) ∧
    ((chatRouteTurn s prompt response (BatchFail.atLLM msg)).history = s.history) ∧
    ((chatRouteTurn s prompt response (BatchFail.atUpload k msg)).history = s.history) ∧
    ((chatRouteTurn s prompt response (BatchFail.atDeploy msg)).history = s.history ++
      [⟨"generate_web", prompt, (parseWebFiles response).map Prod.fst, some response⟩]) ∧
    ((chatRouteTurn s prompt response BatchFail.ok).history = s.history ++
      [⟨"generate_web", prompt, (parseWebFiles response).map Prod.fst, some response⟩]) := by
  have hh : (stream_generate_effect s prompt (String.join chunks)).history =
      (uploadFiles (ensure_sandbox s) (parseWebFiles (String.join chunks))).history ++
        [⟨"generate_web", prompt,
          (parseWebFiles (String.join chunks)).map Prod.fst, none⟩] := by
    simp [stream_generate_effect]
  have hgen : (generate_web_code s prompt response).1.history =
      (uploadFiles (ensure_sandbox s) (parseWebFiles response)).history ++
        [⟨"generate_web", prompt,
          (parseWebFiles response).map Prod.fst, some response⟩] := by
    simp [generate_web_code]
  refine ⟨rfl, ?_, ?_, ?_, rfl, ?_, ?_, ?_⟩
  · have hst : (wsChatTurn s prompt chunks pv (Fail.atUpload k msg)).1 =
        uploadFiles (ensure_sandbox s)
          ((parseWebFiles (String.join chunks)).take k) := by
      simp [wsChatTurn]
    rw [hst, uploadFiles_history, ensure_sandbox_history]
  · have hst : (wsChatTurn s prompt chunks pv (Fail.atDeploy msg)).1 =
        stream_generate_effect s prompt (String.join chunks) := by
      simp [wsChatTurn]
    rw [hst, hh, uploadFiles_history, ensure_sandbox_history]
  · have hst : (wsChatTurn s prompt chunks pv Fail.ok).1 =
        (start_preview_server
          (stream_generate_effect s prompt (String.join chunks))).1 := by
      simp [wsChatTurn]
    rw [hst, start_preview_server_history, hh,
      uploadFiles_history, ensure_sandbox_history]
  · have hst : (chatRouteTurn s prompt response (BatchFail.atUpload k msg)) =
        uploadFiles (ensure_sandbox s) ((parseWebFiles response).take k) := by
      simp [chatRouteTurn]
    rw [hst, uploadFiles_history, ensure_sandbox_history]
  · have hst : (chatRouteTurn s prompt response (BatchFail.atDeploy msg)) =
        (generate_web_code s prompt response).1 := by
      simp [chatRouteTurn]
    rw [hst, hgen, uploadFiles_history, ensure_sandbox_history]
  · have hst : (chatRouteTurn s prompt response BatchFail.ok) =
        (start_preview_server (generate_web_code s prompt response).1).1 := by
      simp [chatRouteTurn]
    rw [hst, start_preview_server_history, hgen,
      uploadFiles_history, ensure_sandbox_history]

end KolosalVibe
